import Mathlib

/-!
Verification of the cw-nft token registry and migration engine.

Shallow embedding of the two source files:
  - packages/cw721/src/state.rs  (registry configuration, token counter,
    owner index function, token/collection data model)
  - contracts/cw721-base/src/lib.rs  (migration pipeline)

Storage is modelled as typed regions of the host key-value store.  Records
stored through the cw_ownable `OwnershipStore` abstraction live in a single
string-keyed association list (`ownershipItems`), so that two stores built
with the same key genuinely alias, exactly as in the byte-keyed host store.
Likewise `IndexedMap` tables are kept in namespace-keyed association lists
(`tokenTables` / `indexTables`), so tables built over the same namespace
alias each other.  Items whose keys are used by exactly one record type are
typed fields named after their storage key.

Machine integers: the token counter is a Rust `u64` compiled with overflow
checks, so arithmetic out of `[0, 2^64)` aborts; this is modelled by
`Option`-valued counter updates (`none` = abort), distinct from the
`Except`-valued contract errors.
-/

namespace CwNft

/-! ## Association-list primitives (the key-value storage substrate) -/

def alookup {α : Type} (k : String) : List (String × α) → Option α
  | [] => none
  | (k', v) :: l => if k = k' then some v else alookup k l

def aset {α : Type} (k : String) (v : α) : List (String × α) → List (String × α)
  | [] => [(k, v)]
  | (k', v') :: l => if k = k' then (k, v) :: l else (k', v') :: aset k v l

def aremove {α : Type} (k : String) (l : List (String × α)) : List (String × α) :=
  l.filter (fun e => e.1 ≠ k)

/-! ## Data model (packages/cw721/src/state.rs) -/

/-- cw_utils::Expiration: tri-state time bound. -/
inductive Expiration : Type
  | atHeight (h : Nat)
  | atTime (t : Nat)
  | never
deriving DecidableEq, Repr

/-- cw_ownable::Ownership: a single-role capability record. -/
structure Ownership : Type where
  owner : Option String
  pending_owner : Option String
  pending_expiry : Option Expiration
deriving DecidableEq, Repr

/-- Approval (state.rs): time-bounded spender grant. -/
structure Approval : Type where
  spender : String
  expires : Expiration
deriving DecidableEq, Repr

/-- NftInfo (state.rs): the primary token record.  The metadata extension is
`Empty` at the entry points, so it is omitted. -/
structure NftInfo : Type where
  owner : String
  approvals : List Approval
  token_uri : Option String
deriving DecidableEq, Repr

/-- Current-format CollectionInfo as used by the migration in lib.rs:
name, symbol, optional extension (always `None` at the default entry points)
and update timestamp. -/
structure CollectionInfo : Type where
  name : String
  symbol : String
  extension : Option Unit
  updated_at : Nat
deriving DecidableEq, Repr

/-- cw721_016::ContractInfoResponse: the legacy name/symbol record stored
under the pre-rename key "nft_info". -/
structure LegacyContractInfo : Type where
  name : String
  symbol : String
deriving DecidableEq, Repr

/-- cw2::ContractVersion, stored under key "contract_info". -/
structure ContractVersion : Type where
  contract : String
  version : String
deriving DecidableEq, Repr

/-! ## Storage -/

/-- The registry's slice of the host key-value store.

* `ownershipItems`: every record written through a `cw_ownable::OwnershipStore`,
  keyed by the store's key string (stores with equal keys alias).
* `minter_legacy`: `Item<Addr>` under legacy key "minter".
* `collection_info`: `Item<CollectionInfo>` under key "collection_info".
* `nft_info_legacy`: `Item<ContractInfoResponse>` under legacy key "nft_info".
* `contract_info`: cw2's `Item<ContractVersion>` under key "contract_info".
* `num_tokens`: `Item<u64>` under key "num_tokens".
* `tokenTables`: primary token tables keyed by their namespace.
* `indexTables`: owner-index tables keyed by their namespace; an entry
  `(owner, id)` is the existence-only `MultiIndex` key `(owner, id)`. -/
structure Storage : Type where
  ownershipItems : List (String × Ownership)
  minter_legacy : Option String
  collection_info : Option CollectionInfo
  nft_info_legacy : Option LegacyContractInfo
  contract_info : Option ContractVersion
  num_tokens : Option Nat
  tokenTables : List (String × List (String × NftInfo))
  indexTables : List (String × List (String × String))
deriving DecidableEq, Repr

def emptyStorage : Storage :=
  { ownershipItems := []
    minter_legacy := none
    collection_info := none
    nft_info_legacy := none
    contract_info := none
    num_tokens := none
    tokenTables := []
    indexTables := [] }

/-! ## Ownership capability stores -/

/-- cw_ownable::OWNERSHIP_KEY. -/
def OWNERSHIP_KEY : String := "ownership"

/-- cw_ownable::OwnershipStore: a capability store is determined by its
storage key. -/
structure OwnershipStore : Type where
  key : String
deriving DecidableEq, Repr

/-- state.rs line 12: `pub const MINTER: OwnershipStore = OwnershipStore::new(OWNERSHIP_KEY);`. -/
def MINTER : OwnershipStore := ⟨OWNERSHIP_KEY⟩

/-- Modelled from the spec: the creator capability store is declared in
cw721-base's state module, which is not under src/.  Per §4.4 branch 2 the
creator store is exactly the record that the v0.17/v0.18 generation kept as
its single shared ownership record, i.e. cw_ownable's OWNERSHIP store under
`OWNERSHIP_KEY` — as the in-source migration comment also states ("in
v0.17/18 cw_ownable::OWNERSHIP was used for minter, now it is used for
creator"). -/
def CREATOR : OwnershipStore := ⟨OWNERSHIP_KEY⟩

/-- `store.item.may_load(storage)`. -/
def OwnershipStore.mayLoad (s : OwnershipStore) (st : Storage) : Option Ownership :=
  alookup s.key st.ownershipItems

/-- cw_ownable's owner-initialization: unconditionally saves an Ownership
record with the given owner and no pending transfer.  Address validation is
the host's identity check and always succeeds on the opaque identity
strings of this model. -/
def OwnershipStore.initOwner (s : OwnershipStore) (st : Storage) (owner : Option String) :
    Storage :=
  { st with ownershipItems := aset s.key ⟨owner, none, none⟩ st.ownershipItems }

/-! ## Token tables (cw_storage_plus IndexedMap over TokenIndexes) -/

/-- state.rs: `token_owner_idx` — the owner index value of a record is its
owner field. -/
def token_owner_idx (d : NftInfo) : String := d.owner

/-- Primary-table namespace of the current-format token table
(Cw721Config::default, state.rs line 54). -/
def TOKENS_KEY : String := "tokens"

/-- Owner-index namespace of the current-format token table
(Cw721Config::default, state.rs line 55). -/
def TOKENS_OWNER_KEY : String := "tokens__owner"

/-- Primary-table namespace of the legacy token table opened by
`migrate_legacy_tokens` (lib.rs line 246/252). -/
def LEGACY_TOKENS_KEY : String := "tokens"

/-- Owner-index namespace of the legacy token table (lib.rs line 246). -/
def LEGACY_TOKENS_OWNER_KEY : String := "tokens__owner"

def tableGet (ns : String) (st : Storage) : List (String × NftInfo) :=
  (alookup ns st.tokenTables).getD []

def tableSet (ns : String) (t : List (String × NftInfo)) (st : Storage) : Storage :=
  { st with tokenTables := aset ns t st.tokenTables }

def idxGet (ns : String) (st : Storage) : List (String × String) :=
  (alookup ns st.indexTables).getD []

def idxSet (ns : String) (t : List (String × String)) (st : Storage) : Storage :=
  { st with indexTables := aset ns t st.indexTables }

/-- Writing the existence-only `MultiIndex` key `(owner, id)`. -/
def idxInsert (e : String × String) (l : List (String × String)) : List (String × String) :=
  if e ∈ l then l else l ++ [e]

/-- Deleting the `MultiIndex` key `(owner, id)`. -/
def idxDelete (e : String × String) (l : List (String × String)) : List (String × String) :=
  l.filter (fun e' => e' ≠ e)

/-- `IndexedMap::save`: delete the old record's index key (if a record was
present), write the primary record, write the new index key — one atomic
unit, as in cw_storage_plus. -/
def imSave (pkNs idxNs : String) (pk : String) (data : NftInfo) (st : Storage) : Storage :=
  let table := tableGet pkNs st
  let idx := idxGet idxNs st
  let idx1 := match alookup pk table with
    | some old => idxDelete (token_owner_idx old, pk) idx
    | none => idx
  let idx2 := idxInsert (token_owner_idx data, pk) idx1
  idxSet idxNs idx2 (tableSet pkNs (aset pk data table) st)

/-- `IndexedMap::remove`: delete the index key and the primary record. -/
def imRemove (pkNs idxNs : String) (pk : String) (st : Storage) : Storage :=
  let table := tableGet pkNs st
  let idx := idxGet idxNs st
  match alookup pk table with
  | some old =>
      idxSet idxNs (idxDelete (token_owner_idx old, pk) idx)
        (tableSet pkNs (aremove pk table) st)
  | none => st

/-! ## Token counter (state.rs lines 89-103) -/

/-- u64 addition under overflow checks: aborts (`none`) outside `[0, 2^64)`. -/
def u64Add (a b : Nat) : Option Nat :=
  if a + b < 2 ^ 64 then some (a + b) else none

/-- u64 subtraction under overflow checks: aborts (`none`) on underflow. -/
def u64Sub (a b : Nat) : Option Nat :=
  if b ≤ a then some (a - b) else none

/-- `Cw721Config::token_count`: absent counter reads as 0 (`unwrap_or_default`),
never an error. -/
def token_count (st : Storage) : Nat :=
  st.num_tokens.getD 0

/-- `Cw721Config::increment_tokens`: `token_count + 1`, saved; `none` models
the u64 overflow abort. -/
def increment_tokens (st : Storage) : Option (Nat × Storage) :=
  match u64Add (token_count st) 1 with
  | none => none
  | some v => some (v, { st with num_tokens := some v })

/-- `Cw721Config::decrement_tokens`: unguarded `token_count - 1`, saved;
`none` models the u64 underflow abort. -/
def decrement_tokens (st : Storage) : Option (Nat × Storage) :=
  match u64Sub (token_count st) 1 with
  | none => none
  | some v => some (v, { st with num_tokens := some v })

/-! ## Migration pipeline (contracts/cw721-base/src/lib.rs) -/

/-- Contract errors.  Every migration-relevant failure is a propagated
storage/std error (`Item::load` on an absent key); the registry operations
additionally raise the typed errors below. -/
inductive Err : Type
  | std
  | notFound
  | alreadyExists
deriving DecidableEq, Repr

/-- Response attributes; the observable outcome of a mutating call. -/
abbrev Response := List (String × String)

/-- The relevant block context: `env.block.time`. -/
structure Env : Type where
  blockTime : Nat
deriving DecidableEq, Repr

/-- `MigrateMsg::WithUpdate` (the only variant): optional operator-supplied
override values. -/
structure MigrateMsg : Type where
  minter : Option String
  creator : Option String
deriving DecidableEq, Repr

/-- lib.rs line 32. -/
def CONTRACT_NAME : String := "crates.io:cw721-base"

/-- lib.rs line 33: taken from the build metadata; no proof depends on the
concrete version string, only on its being the current marker value. -/
def CONTRACT_VERSION : String := "0.19.0"

/-- cw_ownable::none_or: display an optional owner. -/
def noneOr : Option String → String
  | some s => s
  | none => "none"

/-- lib.rs lines 164-197, `migrate_legacy_minter_and_creator`:
1. minter store already holds a record → no-op;
2. else if the creator store holds a record → initialize the minter store to
   that record's owner;
3. else → `Item::new("minter").load` (std error when absent), initialize both
   stores to the loaded address. -/
def migrate_legacy_minter_and_creator (st : Storage) (resp : Response) :
    Except Err (Storage × Response) :=
  match MINTER.mayLoad st with
  | some _ => .ok (st, resp)
  | none =>
    match CREATOR.mayLoad st with
    | some ownership =>
        let owner := ownership.owner
        let st1 := MINTER.initOwner st owner
        .ok (st1, resp ++ [("creator_and_minter", noneOr owner)])
    | none =>
        match st.minter_legacy with
        | none => .error .std
        | some legacy_minter =>
            let st1 := MINTER.initOwner st (some legacy_minter)
            let st2 := CREATOR.initOwner st1 (some legacy_minter)
            .ok (st2, resp ++ [("creator_and_minter", noneOr (some legacy_minter))])

/-- lib.rs lines 200-232, `migrate_legacy_collection_info`: no-op when the
current-format record is present; otherwise load the legacy "nft_info"
record (std error when absent) and write it forward with `extension: None`
and `updated_at: env.block.time`. -/
def migrate_legacy_collection_info (st : Storage) (env : Env) (resp : Response) :
    Except Err (Storage × Response) :=
  match st.collection_info with
  | some _ => .ok (st, resp)
  | none =>
    match st.nft_info_legacy with
    | none => .error .std
    | some legacy =>
        let ci : CollectionInfo :=
          { name := legacy.name
            symbol := legacy.symbol
            extension := none
            updated_at := env.blockTime }
        .ok ({ st with collection_info := some ci },
          resp ++ [("migrated collection name", legacy.name),
                   ("migrated collection symbol", legacy.symbol)])

/-- Insertion of a key into an ascending key list (storage range iteration
returns keys in ascending byte order). -/
def keyInsert (x : String) : List String → List String
  | [] => [x]
  | y :: ys => if x ≤ y then x :: y :: ys else y :: keyInsert x ys

/-- Ascending key enumeration of a table. -/
def sortedKeys (t : List (String × NftInfo)) : List String :=
  (t.map (fun e => e.1)).foldr keyInsert []

/-- lib.rs lines 235-263, `migrate_legacy_tokens`: no-op when the
current-format table is non-empty; otherwise enumerate the legacy table's
keys in ascending order and `save` each loaded record into the
current-format table (re-deriving the owner index entry per save). -/
def migrate_legacy_tokens (st : Storage) (resp : Response) :
    Except Err (Storage × Response) :=
  match (tableGet TOKENS_KEY st).isEmpty with
  | false => .ok (st, resp)
  | true =>
      let keys := sortedKeys (tableGet LEGACY_TOKENS_KEY st)
      match keys.foldlM (fun s k =>
          match alookup k (tableGet LEGACY_TOKENS_KEY s) with
          | none => Except.error Err.std
          | some legacy_token => Except.ok (imSave TOKENS_KEY TOKENS_OWNER_KEY k legacy_token s))
          st with
      | .error e => .error e
      | .ok st1 => .ok (st1, resp)

/-- lib.rs lines 105-118, `migrate_version`: read the cw2 version record
(std error when absent), tag the response with the old and new version, and
unconditionally write the current version marker. -/
def migrate_version (st : Storage) (resp : Response) :
    Except Err (Storage × Response) :=
  match st.contract_info with
  | none => .error .std
  | some v =>
      .ok ({ st with contract_info := some ⟨CONTRACT_NAME, CONTRACT_VERSION⟩ },
        resp ++ [("from_version", v.version), ("to_version", CONTRACT_VERSION)])

/-- lib.rs lines 120-136, `migrate_creator`: apply the operator-supplied
creator override, when present. -/
def migrate_creator (st : Storage) (msg : MigrateMsg) (resp : Response) :
    Except Err (Storage × Response) :=
  match msg.creator with
  | some creator => .ok (CREATOR.initOwner st (some creator), resp ++ [("creator", creator)])
  | none => .ok (st, resp)

/-- lib.rs lines 138-154, `migrate_minter`: apply the operator-supplied
minter override, when present (the attribute key "creator" is as in the
source). -/
def migrate_minter (st : Storage) (msg : MigrateMsg) (resp : Response) :
    Except Err (Storage × Response) :=
  match msg.minter with
  | some minter => .ok (MINTER.initOwner st (some minter), resp ++ [("creator", minter)])
  | none => .ok (st, resp)

/-- lib.rs lines 90-103, `entry::migrate`: the fixed pipeline. -/
def migrate (st : Storage) (env : Env) (msg : MigrateMsg) :
    Except Err (Storage × Response) :=
  match migrate_legacy_minter_and_creator st [] with
  | .error e => .error e
  | .ok (st1, r1) =>
    match migrate_legacy_collection_info st1 env r1 with
    | .error e => .error e
    | .ok (st2, r2) =>
      match migrate_legacy_tokens st2 r2 with
      | .error e => .error e
      | .ok (st3, r3) =>
        match migrate_version st3 r3 with
        | .error e => .error e
        | .ok (st4, r4) =>
          match migrate_creator st4 msg r4 with
          | .error e => .error e
          | .ok (st5, r5) =>
            match migrate_minter st5 msg r5 with
            | .error e => .error e
            | .ok (st6, r6) => .ok (st6, r6)

/-- Host commit semantics: a migrate call that returns an error commits
none of its writes (the pre-call state stands). -/
def migrateCommit (st : Storage) (env : Env) (msg : MigrateMsg) : Storage :=
  match migrate st env msg with
  | .ok (st', _) => st'
  | .error _ => st

/-- The branch a legacy-detection step takes: its detection predicate is the
match scrutinee of the step's source. -/
inductive MigBranch : Type
  | noop
  | act
deriving DecidableEq, Repr

/-- Detection of `migrate_legacy_minter_and_creator` (lib.rs line 173). -/
def minterStepBranch (st : Storage) : MigBranch :=
  if (MINTER.mayLoad st).isSome then .noop else .act

/-- Detection of `migrate_legacy_collection_info` (lib.rs line 213). -/
def collectionStepBranch (st : Storage) : MigBranch :=
  if st.collection_info.isSome then .noop else .act

/-- Detection of `migrate_legacy_tokens` (lib.rs line 242). -/
def tokensStepBranch (st : Storage) : MigBranch :=
  if (tableGet TOKENS_KEY st).isEmpty then .act else .noop

/-! ## Registry operations

The bodies of mint/burn/transfer live in the cw721 package's execute
module, which is not under src/; they are modelled from spec §4.1 on top of
the in-source storage primitives (`imSave`/`imRemove`,
`increment_tokens`/`decrement_tokens`). -/

/-- Outcome of a registry mutation: committed state, contract error, or a
host-level abort (arithmetic overflow panic). -/
inductive OpResult : Type
  | ok (st : Storage)
  | err (e : Err)
  | panic
deriving DecidableEq, Repr

/-- Modelled from the spec: `mint(id, owner, token_uri?, extension)` (§4.1)
— fails `AlreadyExists` when the id is present; otherwise inserts the record
with empty approvals through the indexed table and increments the counter. -/
def mint (st : Storage) (id owner : String) (uri : Option String) : OpResult :=
  match alookup id (tableGet TOKENS_KEY st) with
  | some _ => .err .alreadyExists
  | none =>
      let st1 := imSave TOKENS_KEY TOKENS_OWNER_KEY id ⟨owner, [], uri⟩ st
      match increment_tokens st1 with
      | some (_, st2) => .ok st2
      | none => .panic

/-- Modelled from the spec: `burn(id)` (§4.1) — fails `NotFound` when the id
is absent; otherwise removes the record from the primary table and the owner
index and decrements the counter (the in-source `decrement_tokens`, whose
underflow is a host abort). -/
def burn (st : Storage) (id : String) : OpResult :=
  match alookup id (tableGet TOKENS_KEY st) with
  | none => .err .notFound
  | some _ =>
      let st1 := imRemove TOKENS_KEY TOKENS_OWNER_KEY id st
      match decrement_tokens st1 with
      | some (_, st2) => .ok st2
      | none => .panic

/-- Modelled from the spec: `transfer(id, new_owner)` (§4.1) — fails
`NotFound` when the id is absent; otherwise saves the record with the new
owner and cleared approvals in the same indexed-table unit. -/
def transfer (st : Storage) (id newOwner : String) : OpResult :=
  match alookup id (tableGet TOKENS_KEY st) with
  | none => .err .notFound
  | some tok =>
      .ok (imSave TOKENS_KEY TOKENS_OWNER_KEY id
        { tok with owner := newOwner, approvals := [] } st)

/-- Post-instantiation initial registry states: no token records, no owner
index entries, counter never written (instantiate does not touch it). -/
def InitState (st : Storage) : Prop :=
  tableGet TOKENS_KEY st = [] ∧ idxGet TOKENS_OWNER_KEY st = [] ∧ st.num_tokens = none

instance (st : Storage) : Decidable (InitState st) := by
  unfold InitState; infer_instance

/-- Registry states reachable from instantiation by committed mutations. -/
inductive Reachable : Storage → Prop
  | init (st : Storage) (h : InitState st) : Reachable st
  | mint (st st' : Storage) (id owner : String) (uri : Option String)
      (h : Reachable st) (hs : mint st id owner uri = .ok st') : Reachable st'
  | burn (st st' : Storage) (id : String)
      (h : Reachable st) (hs : burn st id = .ok st') : Reachable st'
  | transfer (st st' : Storage) (id newOwner : String)
      (h : Reachable st) (hs : transfer st id newOwner = .ok st') : Reachable st'

/-! ## Derived invariant definitions -/

/-- Keys of an association list are pairwise distinct.  Holds for every
table built from the empty table by `aset`/`aremove`. -/
def NodupKeys {α : Type} (l : List (String × α)) : Prop :=
  (l.map Prod.fst).Nodup

/-- The owner-index entries recorded for a given token id. -/
def entriesFor (id : String) (i : List (String × String)) : List (String × String) :=
  i.filter (fun e => e.2 == id)

/-- The central index invariant: each id present in the primary table has
exactly one owner-index entry, carrying that record's owner; absent ids
have none. -/
def IdxInv (t : List (String × NftInfo)) (i : List (String × String)) : Prop :=
  ∀ id : String,
    entriesFor id i = ((alookup id t).map (fun tok => (tok.owner, id))).toList

/-- State-level registry invariant: the current-format token table has
pairwise-distinct ids, its owner index satisfies the index invariant, and
the stored counter equals the table's cardinality. -/
def StInv (st : Storage) : Prop :=
  NodupKeys (tableGet TOKENS_KEY st) ∧
  IdxInv (tableGet TOKENS_KEY st) (idxGet TOKENS_OWNER_KEY st) ∧
  token_count st = (tableGet TOKENS_KEY st).length

/-- The committed state after `mint emptyStorage "1" "alice" none`, used to
exercise the reachable-state theorems on a concrete input. -/
def mintWitnessState : Storage :=
  { ownershipItems := []
    minter_legacy := none
    collection_info := none
    nft_info_legacy := none
    contract_info := none
    num_tokens := some 1
    tokenTables := [("tokens", [("1", ⟨"alice", [], none⟩)])]
    indexTables := [("tokens__owner", [("alice", "1")])] }

/-- Equality of every storage component other than the ownership-store
region (the only region the minter/creator steps write). -/
def SameNonOwnership (st st' : Storage) : Prop :=
  st'.minter_legacy = st.minter_legacy ∧ st'.collection_info = st.collection_info ∧
  st'.nft_info_legacy = st.nft_info_legacy ∧ st'.contract_info = st.contract_info ∧
  st'.num_tokens = st.num_tokens ∧ st'.tokenTables = st.tokenTables ∧
  st'.indexTables = st.indexTables

/-- Oldest-generation storage: only the legacy single-key minter address. -/
def wsLegacyMinter : Storage := { emptyStorage with minter_legacy := some "legacy_minter" }

/-- Legacy collection-info only. -/
def wsCollectionLegacy : Storage :=
  { emptyStorage with nft_info_legacy := some ⟨"legacy_name", "legacy_symbol"⟩ }

/-- A state whose ownership record exists but which has neither a
current-format collection info nor the legacy "nft_info" record. -/
def wsOwned : Storage :=
  { emptyStorage with ownershipItems := [(OWNERSHIP_KEY, ⟨some "alice", none, none⟩)] }

/-- A current-generation state with an empty token table, on which migrate
succeeds. -/
def wsIdem : Storage :=
  { wsOwned with
      collection_info := some ⟨"n", "s", none, 0⟩
      contract_info := some ⟨CONTRACT_NAME, "0.16.0"⟩ }

/-- The state `migrate` leaves behind when run on `wsIdem`. -/
def wsIdemPost : Storage :=
  { wsIdem with contract_info := some ⟨CONTRACT_NAME, CONTRACT_VERSION⟩ }

/-- A fully populated pre-migration state carrying every legacy record and a
non-empty token table. -/
def wsFull : Storage :=
  { ownershipItems := [(OWNERSHIP_KEY, ⟨some "alice", none, none⟩)]
    minter_legacy := some "legacy_minter"
    collection_info := some ⟨"name", "symbol", none, 7⟩
    nft_info_legacy := some ⟨"legacy_name", "legacy_symbol"⟩
    contract_info := some ⟨CONTRACT_NAME, "0.16.0"⟩
    num_tokens := some 1
    tokenTables := [("tokens", [("1", ⟨"owner", [], none⟩)])]
    indexTables := [("tokens__owner", [("owner", "1")])] }

/-- The state `migrate` leaves behind when run on `wsFull`. -/
def wsFullPost : Storage :=
  { wsFull with contract_info := some ⟨CONTRACT_NAME, CONTRACT_VERSION⟩ }

/-! ## Association-list lemmas -/

theorem alookup_aset_self {α : Type} (k : String) (v : α) (l : List (String × α)) :
    alookup k (aset k v l) = some v := by
  induction l with
  | nil => simp [alookup, aset]
  | cons e l ih =>
      obtain ⟨k', v'⟩ := e
      by_cases h : k = k' <;> simp [alookup, aset, h, ih]

theorem alookup_aset_of_ne {α : Type} {k k' : String} (h : k ≠ k') (v : α)
    (l : List (String × α)) : alookup k (aset k' v l) = alookup k l := by
  induction l with
  | nil => simp [alookup, aset, h]
  | cons e l ih =>
      obtain ⟨k₁, v₁⟩ := e
      by_cases h1 : k' = k₁
      · subst h1; simp [alookup, aset, h]
      · by_cases h2 : k = k₁ <;> simp [alookup, aset, h1, h2, ih]

theorem alookup_aremove_of_ne {α : Type} {k k' : String} (h : k ≠ k')
    (l : List (String × α)) : alookup k (aremove k' l) = alookup k l := by
  induction l with
  | nil => simp [alookup, aremove]
  | cons e l ih =>
      obtain ⟨k₁, v₁⟩ := e
      by_cases h1 : k₁ = k'
      · subst h1; simp_all [alookup, aremove, List.filter]
      · by_cases h2 : k = k₁ <;>
          simp_all [alookup, aremove, List.filter, h1, h2]

theorem nodupKeys_nil {α : Type} : NodupKeys ([] : List (String × α)) := by
  simp [NodupKeys]

theorem notMem_keys_of_alookup_none {α : Type} {k : String} {l : List (String × α)}
    (h : alookup k l = none) : k ∉ l.map Prod.fst := by
  induction l with
  | nil => simp
  | cons e l ih =>
      obtain ⟨k₁, v₁⟩ := e
      by_cases h1 : k = k₁
      · simp [alookup, h1] at h
      · simp [alookup, h1] at h
        simp [h1, ih h]


theorem alookup_cons_self {α : Type} (k : String) (v : α) (l : List (String × α)) :
    alookup k ((k, v) :: l) = some v := by
  simp [alookup]

theorem alookup_cons_ne {α : Type} {k k₁ : String} (h : k ≠ k₁) (v₁ : α)
    (l : List (String × α)) : alookup k ((k₁, v₁) :: l) = alookup k l := by
  simp [alookup, h]

theorem aset_cons_self {α : Type} (k : String) (v v₁ : α) (l : List (String × α)) :
    aset k v ((k, v₁) :: l) = (k, v) :: l := by
  simp [aset]

theorem aset_cons_ne {α : Type} {k k₁ : String} (h : k ≠ k₁) (v v₁ : α)
    (l : List (String × α)) : aset k v ((k₁, v₁) :: l) = (k₁, v₁) :: aset k v l := by
  simp [aset, h]

theorem aremove_cons_self {α : Type} (k : String) (v₁ : α) (l : List (String × α)) :
    aremove k ((k, v₁) :: l) = aremove k l := by
  simp [aremove]

theorem aremove_cons_ne {α : Type} {k k₁ : String} (h : k₁ ≠ k) (v₁ : α)
    (l : List (String × α)) : aremove k ((k₁, v₁) :: l) = (k₁, v₁) :: aremove k l := by
  simp [aremove, h]

theorem mem_keys_aset {α : Type} {x k : String} (v : α) :
    ∀ l : List (String × α), x ∈ (aset k v l).map Prod.fst → x = k ∨ x ∈ l.map Prod.fst := by
  intro l
  induction l with
  | nil =>
      intro h
      simp [aset] at h
      exact .inl h
  | cons e l ih =>
      obtain ⟨k₁, v₁⟩ := e
      intro h
      by_cases h1 : k = k₁
      · subst h1
        rw [aset_cons_self] at h
        simp only [List.map_cons, List.mem_cons] at h ⊢
        rcases h with h | h
        · exact .inl h
        · exact .inr (.inr h)
      · rw [aset_cons_ne h1] at h
        simp only [List.map_cons, List.mem_cons] at h ⊢
        rcases h with h | h
        · exact .inr (.inl h)
        · rcases ih h with h | h
          · exact .inl h
          · exact .inr (.inr h)

theorem nodupKeys_aset {α : Type} {l : List (String × α)} (k : String) (v : α)
    (h : NodupKeys l) : NodupKeys (aset k v l) := by
  induction l with
  | nil => simp [aset, NodupKeys]
  | cons e l ih =>
      obtain ⟨k₁, v₁⟩ := e
      simp only [NodupKeys, List.map_cons, List.nodup_cons] at h
      obtain ⟨h1, h2⟩ := h
      by_cases hk : k = k₁
      · subst hk
        rw [aset_cons_self]
        simp only [NodupKeys, List.map_cons, List.nodup_cons]
        exact ⟨h1, h2⟩
      · rw [aset_cons_ne hk]
        simp only [NodupKeys, List.map_cons, List.nodup_cons]
        refine ⟨?_, ih h2⟩
        intro hmem
        rcases mem_keys_aset v l hmem with hx | hx
        · exact hk hx.symm
        · exact h1 hx

theorem nodupKeys_aremove {α : Type} {l : List (String × α)} (k : String)
    (h : NodupKeys l) : NodupKeys (aremove k l) := by
  have hsub : List.Sublist ((aremove k l).map Prod.fst) (l.map Prod.fst) :=
    List.Sublist.map Prod.fst (List.filter_sublist l)
  exact List.Nodup.sublist hsub h

theorem length_aset_of_alookup_none {α : Type} {k : String} {l : List (String × α)}
    (h : alookup k l = none) (v : α) : (aset k v l).length = l.length + 1 := by
  induction l with
  | nil => simp [aset]
  | cons e l ih =>
      obtain ⟨k₁, v₁⟩ := e
      by_cases h1 : k = k₁
      · simp [alookup, h1] at h
      · simp [alookup, h1] at h
        simp [aset, h1, ih h]

theorem length_aset_of_alookup_some {α : Type} {k : String} {l : List (String × α)}
    {w : α} (h : alookup k l = some w) (v : α) : (aset k v l).length = l.length := by
  induction l with
  | nil => simp [alookup] at h
  | cons e l ih =>
      obtain ⟨k₁, v₁⟩ := e
      by_cases h1 : k = k₁
      · simp [aset, h1]
      · simp [alookup, h1] at h
        simp [aset, h1, ih h]

theorem aremove_of_notMem_keys {α : Type} {k : String} {l : List (String × α)}
    (h : k ∉ l.map Prod.fst) : aremove k l = l := by
  unfold aremove
  apply List.filter_eq_self.2
  intro e he
  have he1 : e.1 ≠ k := by
    intro hk
    exact h (by simpa [hk] using List.mem_map_of_mem Prod.fst he)
  simpa using he1

theorem length_aremove_of_alookup_some {α : Type} {k : String} {l : List (String × α)}
    {w : α} (hnd : NodupKeys l) (h : alookup k l = some w) :
    (aremove k l).length + 1 = l.length := by
  induction l with
  | nil => simp [alookup] at h
  | cons e l ih =>
      obtain ⟨k₁, v₁⟩ := e
      simp only [NodupKeys, List.map_cons, List.nodup_cons] at hnd
      obtain ⟨hnd1, hnd2⟩ := hnd
      by_cases h1 : k = k₁
      · subst h1
        rw [aremove_cons_self, aremove_of_notMem_keys hnd1]
        simp
      · have hne : k₁ ≠ k := fun hx => h1 hx.symm
        rw [alookup_cons_ne h1] at h
        rw [aremove_cons_ne hne]
        simp only [List.length_cons]
        have := ih hnd2 h
        omega

/-! ## Owner-index invariant (spec §3 / §8) -/

theorem entriesFor_append (id : String) (l₁ l₂ : List (String × String)) :
    entriesFor id (l₁ ++ l₂) = entriesFor id l₁ ++ entriesFor id l₂ :=
  List.filter_append ..

theorem entriesFor_idxDelete (id : String) (e : String × String)
    (l : List (String × String)) :
    entriesFor id (idxDelete e l) = idxDelete e (entriesFor id l) := by
  unfold entriesFor idxDelete
  rw [List.filter_filter, List.filter_filter]
  congr 1
  funext e'
  exact Bool.and_comm ..

theorem mem_of_mem_entriesFor {id : String} {x : String × String}
    {l : List (String × String)} (h : x ∈ entriesFor id l) : x ∈ l ∧ x.2 = id := by
  have := List.mem_filter.1 h
  exact ⟨this.1, by simpa using this.2⟩

theorem mem_entriesFor_of_mem {id : String} {x : String × String}
    {l : List (String × String)} (h1 : x ∈ l) (h2 : x.2 = id) : x ∈ entriesFor id l :=
  List.mem_filter.2 ⟨h1, by simpa using h2⟩

theorem idxDelete_of_all_ne {e : String × String} {l : List (String × String)}
    (h : ∀ x ∈ l, x ≠ e) : idxDelete e l = l := by
  unfold idxDelete
  apply List.filter_eq_self.2
  intro x hx
  simpa using h x hx

theorem entriesFor_idxInsert_ne {pk id : String} (h : pk ≠ id) (o : String)
    (l : List (String × String)) :
    entriesFor id (idxInsert (o, pk) l) = entriesFor id l := by
  unfold idxInsert
  by_cases hm : (o, pk) ∈ l
  · rw [if_pos hm]
  · rw [if_neg hm, entriesFor_append]
    simp [entriesFor, h]

theorem entriesFor_idxInsert_self_of_empty {pk : String} {o : String}
    {l : List (String × String)} (h : entriesFor pk l = []) :
    entriesFor pk (idxInsert (o, pk) l) = [(o, pk)] := by
  have hm : (o, pk) ∉ l := by
    intro hmem
    have : (o, pk) ∈ entriesFor pk l := mem_entriesFor_of_mem hmem rfl
    simp [h] at this
  unfold idxInsert
  rw [if_neg hm, entriesFor_append, h]
  simp [entriesFor]

/-- `IndexedMap::save` preserves the index invariant. -/
theorem idxInv_save {t : List (String × NftInfo)} {i : List (String × String)}
    (hinv : IdxInv t i) (pk : String) (d : NftInfo) :
    IdxInv (aset pk d t)
      (idxInsert (token_owner_idx d, pk)
        (match alookup pk t with
         | some old => idxDelete (token_owner_idx old, pk) i
         | none => i)) := by
  intro id
  by_cases hid : pk = id
  · subst hid
    have hbase : entriesFor pk
        (match alookup pk t with
         | some old => idxDelete (token_owner_idx old, pk) i
         | none => i) = [] := by
      cases h : alookup pk t with
      | none => simpa [h] using hinv pk
      | some old =>
          rw [entriesFor_idxDelete]
          have := hinv pk
          rw [h] at this
          rw [this]
          show idxDelete (old.owner, pk) [(old.owner, pk)] = []
          simp [idxDelete]
    rw [entriesFor_idxInsert_self_of_empty hbase, alookup_aset_self]
    simp [token_owner_idx]
  · rw [entriesFor_idxInsert_ne hid]
    have hstep : entriesFor id
        (match alookup pk t with
         | some old => idxDelete (token_owner_idx old, pk) i
         | none => i) = entriesFor id i := by
      cases h : alookup pk t with
      | none => rfl
      | some old =>
          rw [entriesFor_idxDelete]
          apply idxDelete_of_all_ne
          intro x hx
          intro hxe
          have := (mem_of_mem_entriesFor hx).2
          rw [hxe] at this
          exact hid this
    rw [hstep, hinv id, alookup_aset_of_ne (fun hx => hid hx.symm)]

theorem alookup_aremove_self {α : Type} (k : String) (l : List (String × α)) :
    alookup k (aremove k l) = none := by
  induction l with
  | nil => simp [aremove, alookup]
  | cons e l ih =>
      obtain ⟨k₁, v₁⟩ := e
      by_cases h1 : k₁ = k
      · subst h1; rw [aremove_cons_self]; exact ih
      · rw [aremove_cons_ne h1, alookup_cons_ne (fun hx => h1 hx.symm)]
        exact ih

/-- `IndexedMap::remove` preserves the index invariant. -/
theorem idxInv_remove {t : List (String × NftInfo)} {i : List (String × String)}
    (hinv : IdxInv t i) {pk : String} {old : NftInfo} (h : alookup pk t = some old) :
    IdxInv (aremove pk t) (idxDelete (token_owner_idx old, pk) i) := by
  intro id
  by_cases hid : pk = id
  · subst hid
    rw [entriesFor_idxDelete]
    have hthis := hinv pk
    rw [h] at hthis
    rw [hthis, alookup_aremove_self]
    show idxDelete (old.owner, pk) [(old.owner, pk)] = []
    simp [idxDelete]
  · rw [entriesFor_idxDelete]
    have hkeep : idxDelete (token_owner_idx old, pk) (entriesFor id i) = entriesFor id i := by
      apply idxDelete_of_all_ne
      intro x hx hxe
      have := (mem_of_mem_entriesFor hx).2
      rw [hxe] at this
      exact hid this
    rw [hkeep, hinv id, alookup_aremove_of_ne (fun hx => hid hx.symm)]

/-! ## Storage projection lemmas -/

theorem tableGet_imSave (pkNs idxNs pk : String) (d : NftInfo) (st : Storage) :
    tableGet pkNs (imSave pkNs idxNs pk d st) = aset pk d (tableGet pkNs st) := by
  unfold imSave
  cases h : alookup pk (tableGet pkNs st) <;>
    simp [h, tableGet, tableSet, idxSet, alookup_aset_self]

theorem idxGet_imSave (pkNs idxNs pk : String) (d : NftInfo) (st : Storage) :
    idxGet idxNs (imSave pkNs idxNs pk d st) =
      idxInsert (token_owner_idx d, pk)
        (match alookup pk (tableGet pkNs st) with
         | some old => idxDelete (token_owner_idx old, pk) (idxGet idxNs st)
         | none => idxGet idxNs st) := by
  simp only [imSave]
  cases h : alookup pk (tableGet pkNs st) with
  | none => simp [idxGet, idxSet, tableSet, alookup_aset_self]
  | some old => simp [idxGet, idxSet, tableSet, alookup_aset_self]

theorem num_tokens_imSave (pkNs idxNs pk : String) (d : NftInfo) (st : Storage) :
    (imSave pkNs idxNs pk d st).num_tokens = st.num_tokens := by
  unfold imSave
  cases h : alookup pk (tableGet pkNs st) <;> rfl

theorem tableGet_imRemove_some (pkNs idxNs pk : String) {old : NftInfo} {st : Storage}
    (h : alookup pk (tableGet pkNs st) = some old) :
    tableGet pkNs (imRemove pkNs idxNs pk st) = aremove pk (tableGet pkNs st) := by
  simp only [imRemove]
  rw [h]
  simp [tableGet, tableSet, idxSet, alookup_aset_self]

theorem idxGet_imRemove_some (pkNs idxNs pk : String) {old : NftInfo} {st : Storage}
    (h : alookup pk (tableGet pkNs st) = some old) :
    idxGet idxNs (imRemove pkNs idxNs pk st) =
      idxDelete (token_owner_idx old, pk) (idxGet idxNs st) := by
  simp only [imRemove]
  rw [h]
  simp [idxGet, idxSet, tableSet, alookup_aset_self]

theorem num_tokens_imRemove (pkNs idxNs pk : String) (st : Storage) :
    (imRemove pkNs idxNs pk st).num_tokens = st.num_tokens := by
  simp only [imRemove]
  cases h : alookup pk (tableGet pkNs st) with
  | none => rfl
  | some old => rfl

theorem tableGet_set_num_tokens (ns : String) (st : Storage) (n : Option Nat) :
    tableGet ns { st with num_tokens := n } = tableGet ns st := rfl

theorem idxGet_set_num_tokens (ns : String) (st : Storage) (n : Option Nat) :
    idxGet ns { st with num_tokens := n } = idxGet ns st := rfl

/-! ## Registry invariant and its preservation (claims about §8) -/

theorem stInv_init {st : Storage} (h : InitState st) : StInv st := by
  obtain ⟨h1, h2, h3⟩ := h
  refine ⟨?_, ?_, ?_⟩
  · rw [h1]; exact nodupKeys_nil
  · intro id
    rw [h1, h2]
    simp [entriesFor, alookup]
  · rw [h1]
    simp [token_count, h3]

theorem stInv_mint {st st' : Storage} {id owner : String} {uri : Option String}
    (hinv : StInv st) (h : mint st id owner uri = .ok st') : StInv st' := by
  obtain ⟨hnd, hidx, hcnt⟩ := hinv
  cases hlook : alookup id (tableGet TOKENS_KEY st) with
  | some tok =>
      simp [mint, hlook] at h
  | none =>
      simp only [mint, hlook] at h
      cases hinc : increment_tokens (imSave TOKENS_KEY TOKENS_OWNER_KEY id ⟨owner, [], uri⟩ st) with
      | none => rw [hinc] at h; simp at h
      | some p =>
          obtain ⟨v, st2⟩ := p
          rw [hinc] at h
          simp only [OpResult.ok.injEq] at h
          subst h
          simp only [increment_tokens, u64Add] at hinc
          by_cases hb :
              token_count (imSave TOKENS_KEY TOKENS_OWNER_KEY id ⟨owner, [], uri⟩ st) + 1 < 2 ^ 64
          · rw [if_pos hb] at hinc
            simp only [Option.some.injEq, Prod.mk.injEq] at hinc
            obtain ⟨hv, hst2⟩ := hinc
            rw [← hst2]
            have htab : tableGet TOKENS_KEY
                (imSave TOKENS_KEY TOKENS_OWNER_KEY id ⟨owner, [], uri⟩ st) =
                aset id ⟨owner, [], uri⟩ (tableGet TOKENS_KEY st) :=
              tableGet_imSave ..
            have hidx1 : idxGet TOKENS_OWNER_KEY
                (imSave TOKENS_KEY TOKENS_OWNER_KEY id ⟨owner, [], uri⟩ st) =
                idxInsert (token_owner_idx ⟨owner, [], uri⟩, id) (idxGet TOKENS_OWNER_KEY st) := by
              rw [idxGet_imSave, hlook]
            have hc1 : token_count (imSave TOKENS_KEY TOKENS_OWNER_KEY id ⟨owner, [], uri⟩ st) =
                token_count st := by
              unfold token_count
              rw [num_tokens_imSave]
            refine ⟨?_, ?_, ?_⟩
            · rw [tableGet_set_num_tokens, htab]
              exact nodupKeys_aset id _ hnd
            · rw [tableGet_set_num_tokens, idxGet_set_num_tokens, htab, hidx1]
              have hpres := idxInv_save hidx id (⟨owner, [], uri⟩ : NftInfo)
              rw [hlook] at hpres
              exact hpres
            · rw [tableGet_set_num_tokens, htab]
              simp only [token_count, Option.getD_some]
              rw [num_tokens_imSave, length_aset_of_alookup_none hlook]
              simp only [token_count] at hcnt
              rw [hcnt]
          · rw [if_neg hb] at hinc
            exact absurd hinc (by simp)

theorem stInv_burn {st st' : Storage} {id : String}
    (hinv : StInv st) (h : burn st id = .ok st') : StInv st' := by
  obtain ⟨hnd, hidx, hcnt⟩ := hinv
  cases hlook : alookup id (tableGet TOKENS_KEY st) with
  | none => simp [burn, hlook] at h
  | some old =>
      simp only [burn, hlook] at h
      cases hdec : decrement_tokens (imRemove TOKENS_KEY TOKENS_OWNER_KEY id st) with
      | none => rw [hdec] at h; simp at h
      | some p =>
          obtain ⟨v, st2⟩ := p
          rw [hdec] at h
          simp only [OpResult.ok.injEq] at h
          subst h
          simp only [decrement_tokens, u64Sub] at hdec
          by_cases hb : 1 ≤ token_count (imRemove TOKENS_KEY TOKENS_OWNER_KEY id st)
          · rw [if_pos hb] at hdec
            simp only [Option.some.injEq, Prod.mk.injEq] at hdec
            obtain ⟨hv, hst2⟩ := hdec
            rw [← hst2]
            have htab : tableGet TOKENS_KEY (imRemove TOKENS_KEY TOKENS_OWNER_KEY id st) =
                aremove id (tableGet TOKENS_KEY st) :=
              tableGet_imRemove_some TOKENS_KEY TOKENS_OWNER_KEY id hlook
            have hidx1 : idxGet TOKENS_OWNER_KEY (imRemove TOKENS_KEY TOKENS_OWNER_KEY id st) =
                idxDelete (token_owner_idx old, id) (idxGet TOKENS_OWNER_KEY st) :=
              idxGet_imRemove_some TOKENS_KEY TOKENS_OWNER_KEY id hlook
            have hc1 : token_count (imRemove TOKENS_KEY TOKENS_OWNER_KEY id st) =
                token_count st := by
              unfold token_count
              rw [num_tokens_imRemove]
            refine ⟨?_, ?_, ?_⟩
            · rw [tableGet_set_num_tokens, htab]
              exact nodupKeys_aremove id hnd
            · rw [tableGet_set_num_tokens, idxGet_set_num_tokens, htab, hidx1]
              exact idxInv_remove hidx hlook
            · rw [tableGet_set_num_tokens, htab]
              simp only [token_count, Option.getD_some]
              have hlen := length_aremove_of_alookup_some hnd hlook
              rw [num_tokens_imRemove]
              simp only [token_count] at hcnt
              omega
          · rw [if_neg hb] at hdec
            exact absurd hdec (by simp)

theorem stInv_transfer {st st' : Storage} {id newOwner : String}
    (hinv : StInv st) (h : transfer st id newOwner = .ok st') : StInv st' := by
  obtain ⟨hnd, hidx, hcnt⟩ := hinv
  unfold transfer at h
  cases hlook : alookup id (tableGet TOKENS_KEY st) with
  | none => rw [hlook] at h; exact absurd h (by simp)
  | some tok =>
      rw [hlook] at h
      simp only [OpResult.ok.injEq] at h
      subst h
      have htab : tableGet TOKENS_KEY (imSave TOKENS_KEY TOKENS_OWNER_KEY id
          { tok with owner := newOwner, approvals := [] } st) =
          aset id { tok with owner := newOwner, approvals := [] } (tableGet TOKENS_KEY st) :=
        tableGet_imSave ..
      refine ⟨?_, ?_, ?_⟩
      · rw [htab]
        exact nodupKeys_aset id _ hnd
      · rw [htab, idxGet_imSave, hlook]
        have := idxInv_save hidx id ({ tok with owner := newOwner, approvals := [] } : NftInfo)
        rw [hlook] at this
        exact this
      · rw [htab]
        have hc1 : token_count (imSave TOKENS_KEY TOKENS_OWNER_KEY id
            { tok with owner := newOwner, approvals := [] } st) = token_count st := by
          unfold token_count
          rw [num_tokens_imSave]
        rw [hc1, hcnt, length_aset_of_alookup_some hlook]

/-- Every reachable registry state satisfies the invariant. -/
theorem reachable_stInv {st : Storage} (h : Reachable st) : StInv st := by
  induction h with
  | init st h => exact stInv_init h
  | mint st st' id owner uri h hs ih => exact stInv_mint ih hs
  | burn st st' id h hs ih => exact stInv_burn ih hs
  | transfer st st' id newOwner h hs ih => exact stInv_transfer ih hs

/-! ## Counter behaviour of the registry operations -/

theorem mint_count {st st' : Storage} {id owner : String} {uri : Option String}
    (h : mint st id owner uri = .ok st') : token_count st' = token_count st + 1 := by
  cases hlook : alookup id (tableGet TOKENS_KEY st) with
  | some tok => simp [mint, hlook] at h
  | none =>
      simp only [mint, hlook] at h
      cases hinc : increment_tokens (imSave TOKENS_KEY TOKENS_OWNER_KEY id ⟨owner, [], uri⟩ st) with
      | none => rw [hinc] at h; simp at h
      | some p =>
          obtain ⟨v, st2⟩ := p
          rw [hinc] at h
          simp only [OpResult.ok.injEq] at h
          subst h
          simp only [increment_tokens, u64Add] at hinc
          by_cases hb :
              token_count (imSave TOKENS_KEY TOKENS_OWNER_KEY id ⟨owner, [], uri⟩ st) + 1 < 2 ^ 64
          · rw [if_pos hb] at hinc
            simp only [Option.some.injEq, Prod.mk.injEq] at hinc
            obtain ⟨hv, hst2⟩ := hinc
            rw [← hst2]
            simp only [token_count, Option.getD_some]
            rw [num_tokens_imSave]
          · rw [if_neg hb] at hinc
            exact absurd hinc (by simp)

theorem burn_count {st st' : Storage} {id : String}
    (h : burn st id = .ok st') : token_count st' = token_count st - 1 := by
  cases hlook : alookup id (tableGet TOKENS_KEY st) with
  | none => simp [burn, hlook] at h
  | some old =>
      simp only [burn, hlook] at h
      cases hdec : decrement_tokens (imRemove TOKENS_KEY TOKENS_OWNER_KEY id st) with
      | none => rw [hdec] at h; simp at h
      | some p =>
          obtain ⟨v, st2⟩ := p
          rw [hdec] at h
          simp only [OpResult.ok.injEq] at h
          subst h
          simp only [decrement_tokens, u64Sub] at hdec
          by_cases hb : 1 ≤ token_count (imRemove TOKENS_KEY TOKENS_OWNER_KEY id st)
          · rw [if_pos hb] at hdec
            simp only [Option.some.injEq, Prod.mk.injEq] at hdec
            obtain ⟨hv, hst2⟩ := hdec
            rw [← hst2]
            simp only [token_count, Option.getD_some]
            rw [num_tokens_imRemove]
          · rw [if_neg hb] at hdec
            exact absurd hdec (by simp)

/-! ## Claim theorems -/

/-- C2: for every reachable registry state and every token id present in
the primary token table, the owner index holds exactly one entry for that
id — the list of its entries is the singleton `[(owner, id)]` — and that
entry's owner equals the owner field of the id's primary record; the
mutation closure built into `Reachable` (mint, burn, transfer) never leaves
the two diverged. -/
theorem C2_owner_index_matches_primary (st : Storage) (h : Reachable st)
    (id : String) (tok : NftInfo)
    (htok : alookup id (tableGet TOKENS_KEY st) = some tok) :
    entriesFor id (idxGet TOKENS_OWNER_KEY st) = [(tok.owner, id)] := by
  have hinv := (reachable_stInv h).2.1
  have hthis := hinv id
  rw [htok] at hthis
  exact hthis

/-- Witness for C2 at the concrete state reached by minting token "1" to
"alice" from an empty registry. -/
theorem C2_owner_index_matches_primary_witness :
    entriesFor "1" (idxGet TOKENS_OWNER_KEY mintWitnessState) = [("alice", "1")] := by
  have hmint : mint emptyStorage "1" "alice" none = .ok mintWitnessState := by rfl
  have hreach : Reachable mintWitnessState :=
    Reachable.mint emptyStorage mintWitnessState "1" "alice" none
      (Reachable.init emptyStorage ⟨rfl, rfl, rfl⟩) hmint
  exact C2_owner_index_matches_primary mintWitnessState hreach "1" ⟨"alice", [], none⟩ rfl

/-- C3: in every reachable registry state the stored counter read by
`num_tokens()` equals the cardinality of the primary token table; it is
maintained incrementally — one more after each committed mint, one less
after each committed burn — and a counter read depends only on the stored
counter item, never on the table contents (no scanning). -/
theorem C3_token_count_tracks_table (st : Storage) (h : Reachable st) :
    token_count st = (tableGet TOKENS_KEY st).length ∧
    (∀ (id owner : String) (uri : Option String) (st' : Storage),
      mint st id owner uri = .ok st' → token_count st' = token_count st + 1) ∧
    (∀ (id : String) (st' : Storage),
      burn st id = .ok st' → token_count st' = token_count st - 1) ∧
    (∀ st₂ : Storage, st₂.num_tokens = st.num_tokens → token_count st₂ = token_count st) := by
  refine ⟨(reachable_stInv h).2.2, ?_, ?_, ?_⟩
  · intro id owner uri st' hm
    exact mint_count hm
  · intro id st' hb
    exact burn_count hb
  · intro st₂ h₂
    simp [token_count, h₂]

/-- Witness for C3 at the concrete state reached by minting token "1" to
"alice" from an empty registry: the counter reads 1 and the table has one
entry. -/
theorem C3_token_count_tracks_table_witness :
    token_count mintWitnessState = (tableGet TOKENS_KEY mintWitnessState).length := by
  have hmint : mint emptyStorage "1" "alice" none = .ok mintWitnessState := by rfl
  have hreach : Reachable mintWitnessState :=
    Reachable.mint emptyStorage mintWitnessState "1" "alice" none
      (Reachable.init emptyStorage ⟨rfl, rfl, rfl⟩) hmint
  exact (C3_token_count_tracks_table mintWitnessState hreach).1

/-- C10: the counter read treats an absent counter item as 0 and is total
(no error value), while `decrement_tokens` performs the unguarded u64
subtraction `token_count - 1`; on every state whose counter is absent or
zero it therefore computes 0 - 1 and aborts with an arithmetic underflow
(`none`, the host abort) instead of returning an error value. -/
theorem C10_decrement_underflow_abort (st : Storage)
    (h : st.num_tokens = none ∨ st.num_tokens = some 0) :
    token_count st = 0 ∧ decrement_tokens st = none := by
  have hz : token_count st = 0 := by
    rcases h with h | h <;> simp [token_count, h]
  refine ⟨hz, ?_⟩
  simp [decrement_tokens, u64Sub, hz]

/-- Witness for C10 on the empty storage (counter item absent). -/
theorem C10_decrement_underflow_abort_witness :
    token_count emptyStorage = 0 ∧ decrement_tokens emptyStorage = none :=
  C10_decrement_underflow_abort emptyStorage (Or.inl rfl)

/-- C9 counterexample: the minter store (built with `OWNERSHIP_KEY` in
state.rs line 12) and the creator store (the cw_ownable OWNERSHIP store,
per the migration's own comment) share the storage key "ownership", so a
creator-role initialization is observed by a minter-role read — against the
claim (and the code's own comment "same as for OWNERSHIP but with different
key") that the two roles live under distinct keys. -/
theorem C9_minter_creator_share_key :
    MINTER.key = CREATOR.key ∧
    MINTER.mayLoad emptyStorage = none ∧
    MINTER.mayLoad (CREATOR.initOwner emptyStorage (some "C")) =
      some { owner := some "C", pending_owner := none, pending_expiry := none } :=
  ⟨rfl, rfl, rfl⟩

/-! ## Migration step lemmas -/

theorem sameNonOwnership_refl (st : Storage) : SameNonOwnership st st :=
  ⟨rfl, rfl, rfl, rfl, rfl, rfl, rfl⟩

theorem sameNonOwnership_initOwner (s : OwnershipStore) (st : Storage) (o : Option String) :
    SameNonOwnership st (s.initOwner st o) :=
  ⟨rfl, rfl, rfl, rfl, rfl, rfl, rfl⟩

theorem sameNonOwnership_trans {st st' st'' : Storage}
    (h1 : SameNonOwnership st st') (h2 : SameNonOwnership st' st'') :
    SameNonOwnership st st'' := by
  obtain ⟨a1, b1, c1, d1, e1, f1, g1⟩ := h1
  obtain ⟨a2, b2, c2, d2, e2, f2, g2⟩ := h2
  exact ⟨a2.trans a1, b2.trans b1, c2.trans c1, d2.trans d1,
    e2.trans e1, f2.trans f1, g2.trans g1⟩

theorem mayLoad_initOwner_self (s : OwnershipStore) (st : Storage) (o : Option String) :
    s.mayLoad (s.initOwner st o) = some ⟨o, none, none⟩ := by
  simp [OwnershipStore.mayLoad, OwnershipStore.initOwner, alookup_aset_self]

/-- Step 1 no-op branch (lib.rs lines 171-175). -/
theorem step1_noop {st : Storage} (h : (MINTER.mayLoad st).isSome) (resp : Response) :
    migrate_legacy_minter_and_creator st resp = .ok (st, resp) := by
  cases hm : MINTER.mayLoad st with
  | none => rw [hm] at h; simp at h
  | some o => simp only [migrate_legacy_minter_and_creator, hm]

/-- Inversion of a successful step 1: only the ownership region changes,
and the minter store ends up holding a record. -/
theorem step1_ok_post {st st1 : Storage} {resp r1 : Response}
    (h : migrate_legacy_minter_and_creator st resp = .ok (st1, r1)) :
    SameNonOwnership st st1 ∧ (MINTER.mayLoad st1).isSome := by
  cases hm : MINTER.mayLoad st with
  | some o =>
      simp only [migrate_legacy_minter_and_creator, hm, Except.ok.injEq, Prod.mk.injEq] at h
      obtain ⟨h1, h2⟩ := h
      subst h1
      exact ⟨sameNonOwnership_refl st, by simp [hm]⟩
  | none =>
      cases hc : CREATOR.mayLoad st with
      | some ow =>
          simp only [migrate_legacy_minter_and_creator, hm, hc, Except.ok.injEq,
            Prod.mk.injEq] at h
          obtain ⟨h1, h2⟩ := h
          subst h1
          exact ⟨sameNonOwnership_initOwner .., by rw [mayLoad_initOwner_self]; rfl⟩
      | none =>
          cases hl : st.minter_legacy with
          | none =>
              simp [migrate_legacy_minter_and_creator, hm, hc, hl] at h
          | some a =>
              simp only [migrate_legacy_minter_and_creator, hm, hc, hl, Except.ok.injEq,
                Prod.mk.injEq] at h
              obtain ⟨h1, h2⟩ := h
              subst h1
              refine ⟨sameNonOwnership_trans (sameNonOwnership_initOwner ..)
                (sameNonOwnership_initOwner ..), ?_⟩
              rw [show MINTER = CREATOR from rfl, mayLoad_initOwner_self]
              rfl

/-- Step 2 no-op branch (lib.rs lines 213-214). -/
theorem step2_noop {st : Storage} (h : st.collection_info.isSome) (env : Env)
    (resp : Response) :
    migrate_legacy_collection_info st env resp = .ok (st, resp) := by
  cases hco : st.collection_info with
  | none => rw [hco] at h; simp at h
  | some ci => simp only [migrate_legacy_collection_info, hco]

/-- Inversion of a successful step 2: only the collection-info item
changes, and it ends up present. -/
theorem step2_ok_post {st st1 : Storage} {env : Env} {resp r1 : Response}
    (h : migrate_legacy_collection_info st env resp = .ok (st1, r1)) :
    st1.collection_info.isSome ∧ st1.ownershipItems = st.ownershipItems ∧
    st1.minter_legacy = st.minter_legacy ∧ st1.nft_info_legacy = st.nft_info_legacy ∧
    st1.contract_info = st.contract_info ∧ st1.num_tokens = st.num_tokens ∧
    st1.tokenTables = st.tokenTables ∧ st1.indexTables = st.indexTables := by
  cases hco : st.collection_info with
  | some ci =>
      simp only [migrate_legacy_collection_info, hco, Except.ok.injEq, Prod.mk.injEq] at h
      obtain ⟨h1, h2⟩ := h
      subst h1
      exact ⟨by simp [hco], rfl, rfl, rfl, rfl, rfl, rfl, rfl⟩
  | none =>
      cases hleg : st.nft_info_legacy with
      | none => simp [migrate_legacy_collection_info, hco, hleg] at h
      | some leg =>
          simp only [migrate_legacy_collection_info, hco, hleg, Except.ok.injEq,
            Prod.mk.injEq] at h
          obtain ⟨h1, h2⟩ := h
          subst h1
          exact ⟨rfl, rfl, rfl, rfl, rfl, rfl, rfl, rfl⟩

/-- The token-table migration step never changes storage: when the table is
non-empty it takes its no-op branch, and when it is empty the legacy table
(same namespace "tokens") has no keys to copy. -/
theorem migrate_legacy_tokens_eq (st : Storage) (resp : Response) :
    migrate_legacy_tokens st resp = .ok (st, resp) := by
  cases hE : (tableGet TOKENS_KEY st).isEmpty with
  | false => simp only [migrate_legacy_tokens, hE]
  | true =>
      have htab : tableGet LEGACY_TOKENS_KEY st = [] := by
        have := List.isEmpty_iff.mp hE
        exact this
      simp only [migrate_legacy_tokens, hE, htab]
      rfl

/-- Replacing an item by the value it already holds is the identity. -/
theorem set_contract_info_self {st : Storage} {c : ContractVersion}
    (h : st.contract_info = some c) :
    { st with contract_info := some c } = st := by
  cases st
  simp only [Storage.mk.injEq]
  simp_all

/-- Inversion of a successful version step. -/
theorem step4_ok_post {st st1 : Storage} {resp r1 : Response}
    (h : migrate_version st resp = .ok (st1, r1)) :
    st1 = { st with contract_info := some ⟨CONTRACT_NAME, CONTRACT_VERSION⟩ } := by
  cases hv : st.contract_info with
  | none => simp [migrate_version, hv] at h
  | some v =>
      simp only [migrate_version, hv, Except.ok.injEq, Prod.mk.injEq] at h
      exact h.1.symm

/-- The version step on a state already carrying the current marker leaves
the state unchanged. -/
theorem step4_current (st : Storage) (resp : Response)
    (h : st.contract_info = some ⟨CONTRACT_NAME, CONTRACT_VERSION⟩) :
    migrate_version st resp =
      .ok (st, resp ++ [("from_version", CONTRACT_VERSION), ("to_version", CONTRACT_VERSION)]) := by
  simp only [migrate_version, h]
  rw [set_contract_info_self h]

/-- Inversion of the creator-override step. -/
theorem step5_ok_post {st st1 : Storage} {msg : MigrateMsg} {resp r1 : Response}
    (h : migrate_creator st msg resp = .ok (st1, r1)) :
    SameNonOwnership st st1 ∧
    ((MINTER.mayLoad st).isSome → (MINTER.mayLoad st1).isSome) ∧
    (msg.creator = none → st1 = st ∧ r1 = resp) := by
  cases hc : msg.creator with
  | none =>
      simp only [migrate_creator, hc, Except.ok.injEq, Prod.mk.injEq] at h
      obtain ⟨h1, h2⟩ := h
      subst h1
      exact ⟨sameNonOwnership_refl st, fun hx => hx, fun _ => ⟨rfl, h2.symm⟩⟩
  | some c =>
      simp only [migrate_creator, hc, Except.ok.injEq, Prod.mk.injEq] at h
      obtain ⟨h1, h2⟩ := h
      subst h1
      refine ⟨sameNonOwnership_initOwner .., fun _ => ?_, fun hx => by simp [hc] at hx⟩
      rw [show MINTER = CREATOR from rfl, mayLoad_initOwner_self]
      rfl

/-- Inversion of the minter-override step. -/
theorem step6_ok_post {st st1 : Storage} {msg : MigrateMsg} {resp r1 : Response}
    (h : migrate_minter st msg resp = .ok (st1, r1)) :
    SameNonOwnership st st1 ∧
    ((MINTER.mayLoad st).isSome → (MINTER.mayLoad st1).isSome) ∧
    (msg.minter = none → st1 = st ∧ r1 = resp) := by
  cases hc : msg.minter with
  | none =>
      simp only [migrate_minter, hc, Except.ok.injEq, Prod.mk.injEq] at h
      obtain ⟨h1, h2⟩ := h
      subst h1
      exact ⟨sameNonOwnership_refl st, fun hx => hx, fun _ => ⟨rfl, h2.symm⟩⟩
  | some c =>
      simp only [migrate_minter, hc, Except.ok.injEq, Prod.mk.injEq] at h
      obtain ⟨h1, h2⟩ := h
      subst h1
      refine ⟨sameNonOwnership_initOwner .., fun _ => ?_, fun hx => by simp [hc] at hx⟩
      rw [mayLoad_initOwner_self]
      rfl

theorem mayLoad_congr {st st' : Storage} (s : OwnershipStore)
    (h : st'.ownershipItems = st.ownershipItems) : s.mayLoad st' = s.mayLoad st := by
  simp [OwnershipStore.mayLoad, h]

/-- Inversion of a successful full pipeline run: the minter store,
collection info and current version marker are present afterwards, and no
legacy-keyed component (legacy minter item, legacy collection-info item,
token tables, owner-index tables) nor the counter has changed. -/
theorem migrate_ok_inv {st st' : Storage} {env : Env} {msg : MigrateMsg} {resp : Response}
    (h : migrate st env msg = .ok (st', resp)) :
    (MINTER.mayLoad st').isSome ∧ st'.collection_info.isSome ∧
    st'.contract_info = some ⟨CONTRACT_NAME, CONTRACT_VERSION⟩ ∧
    st'.minter_legacy = st.minter_legacy ∧ st'.nft_info_legacy = st.nft_info_legacy ∧
    st'.tokenTables = st.tokenTables ∧ st'.indexTables = st.indexTables ∧
    st'.num_tokens = st.num_tokens := by
  cases h1 : migrate_legacy_minter_and_creator st [] with
  | error e => simp [migrate, h1] at h
  | ok p1 =>
    obtain ⟨st1, r1⟩ := p1
    cases h2 : migrate_legacy_collection_info st1 env r1 with
    | error e => simp [migrate, h1, h2] at h
    | ok p2 =>
      obtain ⟨st2, r2⟩ := p2
      have h3 := migrate_legacy_tokens_eq st2 r2
      cases h4 : migrate_version st2 r2 with
      | error e => simp [migrate, h1, h2, h3, h4] at h
      | ok p4 =>
        obtain ⟨st4, r4⟩ := p4
        cases h5 : migrate_creator st4 msg r4 with
        | error e => simp [migrate, h1, h2, h3, h4, h5] at h
        | ok p5 =>
          obtain ⟨st5, r5⟩ := p5
          cases h6 : migrate_minter st5 msg r5 with
          | error e => simp [migrate, h1, h2, h3, h4, h5, h6] at h
          | ok p6 =>
            obtain ⟨st6, r6⟩ := p6
            have hfin : st6 = st' ∧ r6 = resp := by
              simp only [migrate, h1, h2, h3, h4, h5, h6, Except.ok.injEq,
                Prod.mk.injEq] at h
              exact h
            obtain ⟨he, hr⟩ := hfin
            subst he
            obtain ⟨f1, m1⟩ := step1_ok_post h1
            obtain ⟨c2, o2, l2, n2, v2, k2, t2, i2⟩ := step2_ok_post h2
            have h4eq := step4_ok_post h4
            obtain ⟨f5, m5, e5⟩ := step5_ok_post h5
            obtain ⟨f6, m6, e6⟩ := step6_ok_post h6
            obtain ⟨a1, b1, g1, d1, n1, t1, i1⟩ := f1
            obtain ⟨a5, b5, g5, d5, n5, t5, i5⟩ := f5
            obtain ⟨a6, b6, g6, d6, n6, t6, i6⟩ := f6
            have o4 : st4.ownershipItems = st2.ownershipItems := by rw [h4eq]
            have b4 : st4.collection_info = st2.collection_info := by rw [h4eq]
            have d4 : st4.contract_info = some ⟨CONTRACT_NAME, CONTRACT_VERSION⟩ := by
              rw [h4eq]
            have a4 : st4.minter_legacy = st2.minter_legacy := by rw [h4eq]
            have g4 : st4.nft_info_legacy = st2.nft_info_legacy := by rw [h4eq]
            have n4 : st4.num_tokens = st2.num_tokens := by rw [h4eq]
            have t4 : st4.tokenTables = st2.tokenTables := by rw [h4eq]
            have i4 : st4.indexTables = st2.indexTables := by rw [h4eq]
            refine ⟨?_, ?_, ?_, ?_, ?_, ?_, ?_, ?_⟩
            · apply m6
              apply m5
              rw [mayLoad_congr MINTER o4, mayLoad_congr MINTER o2]
              exact m1
            · rw [b6, b5, b4]
              exact c2
            · rw [d6, d5]
              exact d4
            · rw [a6, a5, a4, l2]
              exact a1
            · rw [g6, g5, g4, n2]
              exact g1
            · rw [t6, t5, t4, t2]
              exact t1
            · rw [i6, i5, i4, i2]
              exact i1
            · rw [n6, n5, n4, k2]
              exact n1

/-- A second pipeline run on a state that already carries an initialized
minter store, a collection-info record and the current version marker is a
no-op on storage (with no override values supplied). -/
theorem migrate_again {st : Storage} (env₂ : Env)
    (h1 : (MINTER.mayLoad st).isSome) (h2 : st.collection_info.isSome)
    (h3 : st.contract_info = some ⟨CONTRACT_NAME, CONTRACT_VERSION⟩) :
    migrate st env₂ ⟨none, none⟩ =
      .ok (st, [("from_version", CONTRACT_VERSION), ("to_version", CONTRACT_VERSION)]) := by
  have s1 := step1_noop h1 ([] : Response)
  have s2 := step2_noop h2 env₂ ([] : Response)
  have s3 := migrate_legacy_tokens_eq st ([] : Response)
  have s4 := step4_current st [] h3
  simp only [migrate, s1, s2, s3, s4, migrate_creator, migrate_minter, List.nil_append]

/-- C1: the legacy minter/creator migration step is a three-branch case
split evaluated in order: (1) when the minter capability store already
holds a record the step changes nothing; (2) otherwise, when the creator
capability store holds a record, the step initializes the minter store to
that record's owner and leaves the creator store unchanged; (3) otherwise
it loads the legacy single-key minter address and initializes both
capability stores to that address.  (Because the two stores are built over
the same storage key, branch (2)'s guard is never satisfiable; its
conditional holds vacuously.) -/
theorem C1_minter_creator_migration (st : Storage) (resp : Response) :
    ((MINTER.mayLoad st).isSome →
      migrate_legacy_minter_and_creator st resp = .ok (st, resp)) ∧
    (∀ ow : Ownership, MINTER.mayLoad st = none → CREATOR.mayLoad st = some ow →
      ∃ st', migrate_legacy_minter_and_creator st resp =
          .ok (st', resp ++ [("creator_and_minter", noneOr ow.owner)]) ∧
        MINTER.mayLoad st' = some ⟨ow.owner, none, none⟩ ∧
        CREATOR.mayLoad st' = CREATOR.mayLoad st ∧
        SameNonOwnership st st') ∧
    (∀ a : String, MINTER.mayLoad st = none → CREATOR.mayLoad st = none →
      st.minter_legacy = some a →
      ∃ st', migrate_legacy_minter_and_creator st resp =
          .ok (st', resp ++ [("creator_and_minter", a)]) ∧
        MINTER.mayLoad st' = some ⟨some a, none, none⟩ ∧
        CREATOR.mayLoad st' = some ⟨some a, none, none⟩ ∧
        SameNonOwnership st st') := by
  refine ⟨?_, ?_, ?_⟩
  · intro h
    exact step1_noop h resp
  · intro ow hm hc
    rw [show CREATOR.mayLoad st = MINTER.mayLoad st from rfl, hm] at hc
    cases hc
  · intro a hm hc hl
    refine ⟨CREATOR.initOwner (MINTER.initOwner st (some a)) (some a), ?_, ?_, ?_, ?_⟩
    · simp only [migrate_legacy_minter_and_creator, hm, hc, hl]
      rfl
    · rw [show MINTER = CREATOR from rfl, mayLoad_initOwner_self]
    · rw [mayLoad_initOwner_self]
    · exact sameNonOwnership_trans (sameNonOwnership_initOwner ..)
        (sameNonOwnership_initOwner ..)

/-- Witness for C1's third branch on a concrete oldest-generation state:
the legacy address "legacy_minter" is copied into both capability stores
and nothing else changes. -/
theorem C1_minter_creator_migration_witness :
    ∃ st', migrate_legacy_minter_and_creator wsLegacyMinter [] =
        .ok (st', [("creator_and_minter", "legacy_minter")]) ∧
      MINTER.mayLoad st' = some ⟨some "legacy_minter", none, none⟩ ∧
      CREATOR.mayLoad st' = some ⟨some "legacy_minter", none, none⟩ ∧
      SameNonOwnership wsLegacyMinter st' :=
  (C1_minter_creator_migration wsLegacyMinter []).2.2 "legacy_minter" rfl rfl rfl

/-- C7: the legacy collection-info step changes nothing when a
current-format record is present; otherwise it reads the legacy name/symbol
record stored under the pre-rename key "nft_info" and writes a
current-format record with the legacy name and symbol, no extension, and
the current block time as update timestamp. -/
theorem C7_collection_info_migration (st : Storage) (env : Env) (resp : Response) :
    (∀ ci : CollectionInfo, st.collection_info = some ci →
      migrate_legacy_collection_info st env resp = .ok (st, resp)) ∧
    (∀ leg : LegacyContractInfo, st.collection_info = none →
      st.nft_info_legacy = some leg →
      migrate_legacy_collection_info st env resp =
        .ok ({ st with collection_info := some ⟨leg.name, leg.symbol, none, env.blockTime⟩ },
          resp ++ [("migrated collection name", leg.name),
                   ("migrated collection symbol", leg.symbol)])) := by
  constructor
  · intro ci hci
    exact step2_noop (by simp [hci]) env resp
  · intro leg hci hleg
    simp only [migrate_legacy_collection_info, hci, hleg]

/-- Witness for C7's migration branch on a concrete legacy state. -/
theorem C7_collection_info_migration_witness :
    migrate_legacy_collection_info wsCollectionLegacy ⟨5⟩ [] =
      .ok ({ wsCollectionLegacy with collection_info := some ⟨"legacy_name", "legacy_symbol", none, 5⟩ },
        [("migrated collection name", "legacy_name"),
         ("migrated collection symbol", "legacy_symbol")]) := by
  have := (C7_collection_info_migration wsCollectionLegacy ⟨5⟩ []).2
    ⟨"legacy_name", "legacy_symbol"⟩ rfl rfl
  simpa using this

/-- C8: the token-table migration step takes its no-op branch whenever the
current-format token table is non-empty, never changes storage at all
(when the table is empty the legacy table — which shares the namespace
"tokens" — has no keys, so the ascending enumeration copies nothing), and
afterwards the current-format table holds exactly the legacy entries, same
ids and owners. -/
theorem C8_token_table_migration (st : Storage) (resp : Response) :
    migrate_legacy_tokens st resp = .ok (st, resp) ∧
    tableGet TOKENS_KEY st = tableGet LEGACY_TOKENS_KEY st ∧
    TOKENS_KEY = LEGACY_TOKENS_KEY :=
  ⟨migrate_legacy_tokens_eq st resp, rfl, rfl⟩

/-- C5: no migration step deletes or overwrites legacy-keyed records — after
every successful migrate call the legacy single-key minter address and the
legacy collection-info record are unchanged, and every legacy token-table
entry is still present with its original value (the legacy token tables are
in fact wholly unchanged). -/
theorem C5_legacy_data_preserved (st st' : Storage) (env : Env) (msg : MigrateMsg)
    (resp : Response) (h : migrate st env msg = .ok (st', resp)) :
    st'.minter_legacy = st.minter_legacy ∧
    st'.nft_info_legacy = st.nft_info_legacy ∧
    (∀ (id : String) (tok : NftInfo),
      alookup id (tableGet LEGACY_TOKENS_KEY st) = some tok →
      alookup id (tableGet LEGACY_TOKENS_KEY st') = some tok) ∧
    tableGet LEGACY_TOKENS_KEY st' = tableGet LEGACY_TOKENS_KEY st ∧
    idxGet LEGACY_TOKENS_OWNER_KEY st' = idxGet LEGACY_TOKENS_OWNER_KEY st := by
  obtain ⟨_, _, _, hminter, hnft, htok, hidx, _⟩ := migrate_ok_inv h
  have htabs : tableGet LEGACY_TOKENS_KEY st' = tableGet LEGACY_TOKENS_KEY st := by
    simp [tableGet, htok]
  refine ⟨hminter, hnft, ?_, htabs, ?_⟩
  · intro id tok htk
    rw [htabs]
    exact htk
  · simp [idxGet, hidx]

/-- Witness for C5 on a fully populated legacy state: after the successful
migrate, the legacy minter item, legacy collection-info item and the token
tables are bit-for-bit those of the pre-state. -/
theorem C5_legacy_data_preserved_witness :
    wsFullPost.minter_legacy = wsFull.minter_legacy ∧
    wsFullPost.nft_info_legacy = wsFull.nft_info_legacy ∧
    (∀ (id : String) (tok : NftInfo),
      alookup id (tableGet LEGACY_TOKENS_KEY wsFull) = some tok →
      alookup id (tableGet LEGACY_TOKENS_KEY wsFullPost) = some tok) ∧
    tableGet LEGACY_TOKENS_KEY wsFullPost = tableGet LEGACY_TOKENS_KEY wsFull ∧
    idxGet LEGACY_TOKENS_OWNER_KEY wsFullPost = idxGet LEGACY_TOKENS_OWNER_KEY wsFull :=
  C5_legacy_data_preserved wsFull wsFullPost ⟨0⟩ ⟨none, none⟩
    [("from_version", "0.16.0"), ("to_version", CONTRACT_VERSION)] (by rfl)

/-- C6: when a legacy generation is detected but the legacy record the
branch then expects is absent — neither capability store initialized and
the legacy "minter" item missing, or no current collection info and the
legacy "nft_info" item missing — the whole migrate call returns an error,
and under the host's all-or-nothing commit none of the pipeline's writes
are committed. -/
theorem C6_missing_legacy_data_errors (st : Storage) (env : Env) (msg : MigrateMsg)
    (h : (MINTER.mayLoad st = none ∧ CREATOR.mayLoad st = none ∧ st.minter_legacy = none) ∨
         (st.collection_info = none ∧ st.nft_info_legacy = none)) :
    (∃ e, migrate st env msg = Except.error e) ∧ migrateCommit st env msg = st := by
  have herr : ∃ e, migrate st env msg = Except.error e := by
    rcases h with ⟨hm, hc, hl⟩ | ⟨hcoll, hnft⟩
    · have hs1 : migrate_legacy_minter_and_creator st ([] : Response) = .error .std := by
        simp only [migrate_legacy_minter_and_creator, hm, hc, hl]
      exact ⟨.std, by simp only [migrate, hs1]⟩
    · cases hs1 : migrate_legacy_minter_and_creator st ([] : Response) with
      | error e => exact ⟨e, by simp only [migrate, hs1]⟩
      | ok p =>
          obtain ⟨st1, r1⟩ := p
          obtain ⟨⟨_, hco1, hnf1, _, _, _, _⟩, _⟩ := step1_ok_post hs1
          have hs2 : migrate_legacy_collection_info st1 env r1 = .error .std := by
            simp only [migrate_legacy_collection_info, hco1, hcoll, hnf1, hnft]
          exact ⟨.std, by simp only [migrate, hs1, hs2]⟩
  obtain ⟨e, he⟩ := herr
  exact ⟨⟨e, he⟩, by simp [migrateCommit, he]⟩

/-- Witness for C6 on a concrete state with an initialized ownership record
but neither a current collection info nor the legacy "nft_info" item. -/
theorem C6_missing_legacy_data_errors_witness :
    (∃ e, migrate wsOwned ⟨0⟩ ⟨none, none⟩ = Except.error e) ∧
    migrateCommit wsOwned ⟨0⟩ ⟨none, none⟩ = wsOwned :=
  C6_missing_legacy_data_errors wsOwned ⟨0⟩ ⟨none, none⟩ (Or.inr ⟨rfl, rfl⟩)

/-- C4 counterexample: on `wsIdem` — a current-generation state with an
empty token table — the first migrate succeeds, the second migrate succeeds
and leaves the state identical, but the second run's token-table step takes
its detection (migration) branch, not the no-op branch, because the table
is empty; so the claim's "takes the no-op branch of every legacy-detection
step" is false as stated. -/
theorem C4_second_run_token_branch_cex :
    migrate wsIdem ⟨0⟩ ⟨none, none⟩ =
      .ok (wsIdemPost, [("from_version", "0.16.0"), ("to_version", CONTRACT_VERSION)]) ∧
    migrate wsIdemPost ⟨0⟩ ⟨none, none⟩ =
      .ok (wsIdemPost, [("from_version", CONTRACT_VERSION), ("to_version", CONTRACT_VERSION)]) ∧
    tokensStepBranch wsIdemPost ≠ MigBranch.noop := by
  refine ⟨by rfl, by rfl, by decide⟩

/-- C4 (amended): the migration pipeline is idempotent on storage — after a
successful migrate with no overrides, a second migrate succeeds and leaves
the storage state identical — and the second run takes the no-op branch of
the minter/creator and collection-info steps, and of the token-table step
whenever the token table is non-empty (on an empty table that step takes
its migration branch both times, copying zero records and changing
nothing). -/
theorem C4_migrate_idempotent_amended (st st' : Storage) (env : Env) (resp : Response)
    (h : migrate st env ⟨none, none⟩ = .ok (st', resp)) (env₂ : Env) :
    migrate st' env₂ ⟨none, none⟩ =
      .ok (st', [("from_version", CONTRACT_VERSION), ("to_version", CONTRACT_VERSION)]) ∧
    minterStepBranch st' = .noop ∧
    collectionStepBranch st' = .noop ∧
    ((tableGet TOKENS_KEY st').isEmpty = false → tokensStepBranch st' = .noop) := by
  obtain ⟨hm, hc, hv, _⟩ := migrate_ok_inv h
  refine ⟨migrate_again env₂ hm hc hv, ?_, ?_, ?_⟩
  · simp [minterStepBranch, hm]
  · simp [collectionStepBranch, hc]
  · intro hne
    simp [tokensStepBranch, hne]

/-- Witness for the amended C4 on the concrete state `wsIdem`. -/
theorem C4_migrate_idempotent_amended_witness :
    migrate wsIdemPost ⟨1⟩ ⟨none, none⟩ =
      .ok (wsIdemPost, [("from_version", CONTRACT_VERSION), ("to_version", CONTRACT_VERSION)]) ∧
    minterStepBranch wsIdemPost = .noop ∧
    collectionStepBranch wsIdemPost = .noop ∧
    ((tableGet TOKENS_KEY wsIdemPost).isEmpty = false → tokensStepBranch wsIdemPost = .noop) :=
  C4_migrate_idempotent_amended wsIdem wsIdemPost ⟨0⟩
    [("from_version", "0.16.0"), ("to_version", CONTRACT_VERSION)] (by rfl) ⟨1⟩
